import Mathlib

/-!
Verification of the client-side audio streaming pipeline of the
insights-ai-csm-frontend repository.  The authoritative source is
src/lib/useWebSocketAudio.ts (the current revision of the WebSocket-audio
hook); src/unnamed/part_002 is an earlier revision of the same hook with a
slightly different microphone gate, modelled separately where a claim cites
it.  Samples and clock times are modelled as rationals (exact arithmetic in
place of IEEE doubles), byte values as naturals, and the browser-side
mutable refs as fields of explicit state records.
-/

namespace WsAudio

/-- JavaScript Math.round: floor of x + 1/2 (rounds half toward positive
infinity), as used for resampling block boundaries. -/
def jsRound (q : ℚ) : ℤ := ⌊q + 1/2⌋

/-- JavaScript ToInteger truncation toward zero, applied when a float is
stored into an Int16Array element (values here are always in range, so no
wrap-around occurs). -/
def jsTrunc (q : ℚ) : ℤ := if 0 ≤ q then ⌊q⌋ else ⌈q⌉

/-- Reinterpret two bytes as one signed 16-bit sample, little endian, as an
Int16Array view over a Uint8Array does in queueAudioChunk. -/
def toInt16 (lo hi : ℕ) : ℤ :=
  let v : ℤ := (lo % 256 : ℕ) + 256 * ((hi % 256 : ℕ) : ℤ)
  if v < 32768 then v else v - 65536

/-- Decode a byte list into signed 16-bit samples, two bytes per sample in
order; a trailing unpaired byte yields no sample. -/
def bytesToInt16 : List ℕ → List ℤ
  | lo :: hi :: rest => toInt16 lo hi :: bytesToInt16 rest
  | _ => []

/-- State owned by the Playback Scheduler part of the hook: the refs
residueRef, nextStartTimeRef, activeSourceRef, audioQueueRef and
isPlayingRef of src/lib/useWebSocketAudio.ts.  nextId supplies fresh
identities for created AudioBufferSourceNodes so that stopping a node can
be tracked as an observable action. -/
structure SchedState where
  residue : List ℕ
  nextStartTime : ℚ
  activeSource : Option ℕ
  audioQueue : List ℕ
  isPlaying : Bool
  nextId : ℕ
deriving Repr, DecidableEq

/-- The scheduler state at hook initialisation: all refs empty / zero. -/
def initSched : SchedState :=
  { residue := [], nextStartTime := 0, activeSource := none,
    audioQueue := [], isPlaying := false, nextId := 0 }

/-- queueAudioChunk from src/lib/useWebSocketAudio.ts (lines 69-123),
modelled on the bytes produced by the base64 decode (atob +
charCodeAt loop).  It merges the residue byte, strips a trailing odd byte
back into the residue, decodes the even-length remainder into 16-bit
samples, and schedules them at max(now + 0.02, nextStartTime), advancing
the cursor by the buffer duration (sampleCount / 16000).  Returns the new
state together with the scheduled (samples, startTime) event, if any. -/
def queueAudioChunk (s : SchedState) (rawBytes : List ℕ) (now : ℚ) :
    SchedState × Option (List ℤ × ℚ) :=
  let combined := s.residue ++ rawBytes
  let residue2 := if combined.length % 2 ≠ 0 then combined.drop (combined.length - 1) else []
  let combined2 := if combined.length % 2 ≠ 0 then combined.dropLast else combined
  if combined2.length = 0 then ({ s with residue := residue2 }, none)
  else
    let samples := bytesToInt16 combined2
    let dur : ℚ := (samples.length : ℚ) / 16000
    let startTime := max (now + 1/50) s.nextStartTime
    ({ s with residue := residue2,
              nextStartTime := startTime + dur,
              activeSource := some s.nextId,
              nextId := s.nextId + 1 },
     some (samples, startTime))

/-- Observable actions performed on audio nodes. -/
inductive NodeAction where
  | stop (id : ℕ)
  | disconnect (id : ℕ)
deriving Repr, DecidableEq

/-- stopPlayback from src/lib/useWebSocketAudio.ts (lines 125-138): reset
the cursor to 0, stop and disconnect the active source (if any) and drop
its handle, clear the queue and the playing flag.  Note that residueRef is
not touched by this function. -/
def stopPlayback (s : SchedState) : SchedState × List NodeAction :=
  let acts := match s.activeSource with
    | some id => [NodeAction.stop id, NodeAction.disconnect id]
    | none => []
  ({ s with nextStartTime := 0, activeSource := none,
            audioQueue := [], isPlaying := false }, acts)

/-- The samples scheduled by one queueAudioChunk call (empty when nothing
was scheduled). -/
def emitted : Option (List ℤ × ℚ) → List ℤ
  | some p => p.1
  | none => []

/-- Process a list of chunks (each with the audio-clock reading at its
arrival) through queueAudioChunk, collecting the scheduled sample lists in
order. -/
def processChunks : SchedState → List (List ℕ × ℚ) → SchedState × List (List ℤ)
  | s, [] => (s, [])
  | s, (raw, now) :: rest =>
    let r1 := queueAudioChunk s raw now
    let r2 := processChunks r1.1 rest
    (r2.1, (match r1.2 with | some p => [p.1] | none => []) ++ r2.2)

/-- Index span the inner for-loop of downsampleBuffer visits for one output
slot: i ranging from lo while i < hi and i < len. -/
def spanIdxs (len : ℕ) (lo hi : ℤ) : List ℕ :=
  (List.range len).filter fun i => decide (lo ≤ (i : ℤ) ∧ (i : ℤ) < hi)

/-- Value the inner loop of downsampleBuffer stores for one output slot:
accum / count when count > 0, else 0. -/
def loopAvg (b : List ℚ) (lo hi : ℤ) : ℚ :=
  let idxs := spanIdxs b.length lo hi
  if idxs.length = 0 then 0
  else (idxs.map fun i => b.getD i 0).sum / (idxs.length : ℚ)

/-- The while-loop of downsampleBuffer: k is offsetResult, off is
offsetBuffer, rem counts the output slots still to fill. -/
def dsLoop (b : List ℚ) (ratio : ℚ) : ℕ → ℤ → ℕ → List ℚ
  | _, _, 0 => []
  | k, off, rem + 1 =>
    let nextOff := jsRound (((k : ℚ) + 1) * ratio)
    loopAvg b off nextOff :: dsLoop b ratio (k + 1) nextOff rem

/-- downsampleBuffer from src/lib/useWebSocketAudio.ts (lines 143-168):
identity when the rates are equal, otherwise block-averaging over spans
whose boundaries are Math.round(k * ratio).  The output length is
Math.round(len / ratio); a negative rounded length (impossible for the
positive rates that occur) is clamped to 0, where the JS construction of a
Float32Array would throw. -/
def downsampleBuffer (b : List ℚ) (inputSampleRate outputSampleRate : ℚ) : List ℚ :=
  if outputSampleRate = inputSampleRate then b
  else
    let sampleRateRatio := inputSampleRate / outputSampleRate
    let newLength := (jsRound ((b.length : ℚ) / sampleRateRatio)).toNat
    dsLoop b sampleRateRatio 0 0 newLength

/-- State of the whole hook: the scheduler refs plus the session flags
(isConnected is modelled as wsOpen, the readiness of wsRef), the mute
flag and its underlying track-enabled flag, and the presence of the
MediaStream and ScriptProcessorNode. -/
structure HookState where
  sched : SchedState
  wsOpen : Bool
  isCallActive : Bool
  greetingInProgress : Bool
  isThinking : Bool
  isSpeaking : Bool
  isMuted : Bool
  hasStream : Bool
  trackEnabled : Bool
  hasProcessor : Bool
deriving Repr, DecidableEq

/-- Hook state right after mount with an open socket: all refs empty, all
flags false. -/
def initHook : HookState :=
  { sched := initSched, wsOpen := true, isCallActive := false,
    greetingInProgress := false, isThinking := false, isSpeaking := false,
    isMuted := false, hasStream := false, trackEnabled := false,
    hasProcessor := false }

/-- Inbound WebSocket control messages dispatched by the onmessage switch;
an audio message carries the bytes its base64 payload decodes to. -/
inductive Msg where
  | simulationStarted
  | introStart
  | introStop
  | sttFinal (text : String)
  | transcription (text : String)
  | backendResponse (text : String)
  | ttsStart (text : String)
  | audio (bytes : List ℕ)
  | audioEnd
  | ttsInterrupted
  | botThinking
  | botSpeaking
  | botStopped
  | userActivity
  | errorMsg (text : String)
deriving Repr, DecidableEq

/-- Externally observable effects of the hook: buffers scheduled for
rendering, node stop/disconnect actions, outbound control messages, and
invocations of the error callback. -/
inductive Ev where
  | scheduled (samples : List ℤ) (startTime : ℚ)
  | node (a : NodeAction)
  | sentSessionConfig (sessionId : String)
  | sentSessionEnd
  | errorReported
deriving Repr, DecidableEq

/-- The onmessage dispatch of src/lib/useWebSocketAudio.ts (lines 263-354).
Cases that only invoke UI callbacks leave the modelled state unchanged;
the audio_end case only arms a deferred timer, so it has no synchronous
state effect.  There is no flag consulted by the audio case: every audio
message with a non-empty payload reaches queueAudioChunk. -/
def onMessage (s : HookState) (m : Msg) (now : ℚ) : HookState × List Ev :=
  match m with
  | .simulationStarted => (s, [])
  | .introStart => ({ s with greetingInProgress := true }, [])
  | .introStop => ({ s with greetingInProgress := false }, [])
  | .sttFinal _ => (s, [])
  | .transcription _ => (s, [])
  | .backendResponse _ => (s, [])
  | .ttsStart _ =>
    let r := stopPlayback s.sched
    ({ s with sched := r.1 }, r.2.map Ev.node)
  | .audio bytes =>
    if bytes.isEmpty then (s, [])
    else
      let r := queueAudioChunk s.sched bytes now
      ({ s with sched := r.1 },
       match r.2 with | some p => [Ev.scheduled p.1 p.2] | none => [])
  | .audioEnd => (s, [])
  | .ttsInterrupted =>
    let r := stopPlayback s.sched
    ({ s with sched := r.1 }, r.2.map Ev.node)
  | .botThinking => ({ s with isThinking := true }, [])
  | .botSpeaking => ({ s with isThinking := false, isSpeaking := true }, [])
  | .botStopped => ({ s with isSpeaking := false }, [])
  | .userActivity =>
    let r := stopPlayback s.sched
    ({ s with isThinking := false, isSpeaking := false, sched := r.1 },
     r.2.map Ev.node)
  | .errorMsg text => (s, if text.isEmpty then [] else [Ev.errorReported])

/-- Run a trace of messages (each with the audio-clock reading at its
arrival), collecting the events emitted while processing each message. -/
def runTrace : HookState → List (Msg × ℚ) → HookState × List (List Ev)
  | s, [] => (s, [])
  | s, (m, now) :: rest =>
    let r := onMessage s m now
    let r2 := runTrace r.1 rest
    (r2.1, r.2 :: r2.2)

/-- The hook state after the first n messages of a trace have been
processed. -/
def stateAfter (s0 : HookState) (trace : List (Msg × ℚ)) (n : ℕ) : HookState :=
  (runTrace s0 (trace.take n)).1

/-- Messages that signal an interruption of the current speech turn. -/
def isInterrupt : Msg → Bool
  | .ttsInterrupted => true
  | .userActivity => true
  | _ => false

/-- Messages that begin a new speech turn. -/
def isTurnStart : Msg → Bool
  | .ttsStart _ => true
  | .introStart => true
  | _ => false

/-- The scheduling events among a list of emitted events. -/
def schedEvs (evs : List Ev) : List Ev :=
  evs.filter fun e => match e with | .scheduled _ _ => true | _ => false

/-- Formalisation of claim C1 for a trace: whenever message i is an
interruption and message j arrives later with no new-turn message strictly
between them, processing message j schedules nothing (audio of the
superseded turn is suppressed). -/
def ghostFree (s0 : HookState) (trace : List (Msg × ℚ)) : Prop :=
  ∀ i < trace.length, ∀ j < trace.length, i < j →
    isInterrupt (trace.getD i (Msg.audioEnd, 0)).1 = true →
    (∀ k < j, i < k → isTurnStart (trace.getD k (Msg.audioEnd, 0)).1 = false) →
    schedEvs ((runTrace s0 trace).2.getD j []) = []

/-- Float-to-Int16 conversion of the microphone path: clamp to [-1, 1],
scale by 0x8000 for negative and 0x7FFF for non-negative values, truncate
on storage into the Int16Array. -/
def quantizeSample (x : ℚ) : ℤ :=
  let s := max (-1) (min 1 x)
  if s < 0 then jsTrunc (s * 32768) else jsTrunc (s * 32767)

/-- processor.onaudioprocess from src/lib/useWebSocketAudio.ts (lines
207-224): drop the block when the socket is not open or when a stream
exists whose first track is disabled; otherwise downsample to 16 kHz,
quantize, and send.  Returns the transmitted frame, or none if dropped. -/
def onAudioProcess (st : HookState) (input : List ℚ) (actualSampleRate : ℚ) :
    Option (List ℤ) :=
  if st.wsOpen = false then none
  else if st.hasStream && !st.trackEnabled then none
  else some ((downsampleBuffer input actualSampleRate 16000).map quantizeSample)

/-- processor.onaudioprocess of the earlier revision src/unnamed/part_002
(lines 186-203): additionally gated on the greeting flag, and without the
resampling step. -/
def onAudioProcessPart002 (st : HookState) (input : List ℚ) : Option (List ℤ) :=
  if st.wsOpen = false then none
  else if st.greetingInProgress then none
  else if st.hasStream && !st.trackEnabled then none
  else some (input.map quantizeSample)

/-- startMicrophone from src/lib/useWebSocketAudio.ts (lines 170-237).
micOk says whether getUserMedia resolves; on failure the catch block sets
isCallActive to false and reports the error once, touching nothing else.
On success the stream and processor are installed, the track-enabled flag
and mute flag are set from startMuted, and the call becomes active. -/
def startMicrophone (s : HookState) (startMuted : Bool) (micOk : Bool) :
    HookState × List Ev :=
  if micOk then
    ({ s with hasStream := true, isMuted := startMuted,
              trackEnabled := !startMuted, hasProcessor := true,
              isCallActive := true }, [])
  else
    ({ s with isCallActive := false }, [Ev.errorReported])

/-- startCall from src/lib/useWebSocketAudio.ts (lines 395-408): refused
while a call is active or a greeting is in progress; otherwise, only when
the socket is open, it sends session_config (when a session id is given),
sets the greeting flag, and starts the microphone unmuted. -/
def startCall (s : HookState) (sessionId : Option String) (micOk : Bool) :
    HookState × List Ev :=
  if s.isCallActive || s.greetingInProgress then (s, [])
  else if s.wsOpen then
    let cfg := match sessionId with
      | some sid => [Ev.sentSessionConfig sid]
      | none => []
    let r := startMicrophone { s with greetingInProgress := true } false micOk
    (r.1, cfg ++ r.2)
  else (s, [])

/-- stopCall from src/lib/useWebSocketAudio.ts (lines 378-393): send
session_end when the socket is open, stop the stream tracks and drop the
stream, disconnect and drop the processor, stop playback, and clear the
call, greeting and mute flags. -/
def stopCall (s : HookState) : HookState × List Ev :=
  let sendEvs := if s.wsOpen then [Ev.sentSessionEnd] else []
  let r := stopPlayback s.sched
  ({ s with hasStream := false, hasProcessor := false, sched := r.1,
            isCallActive := false, greetingInProgress := false,
            isMuted := false },
   sendEvs ++ r.2.map Ev.node)

/-- toggleMute from src/lib/useWebSocketAudio.ts (lines 366-376): flip the
mute flag and mirror it onto the track-enabled flag when a stream exists. -/
def toggleMute (s : HookState) : HookState :=
  { s with isMuted := !s.isMuted,
           trackEnabled := if s.hasStream then s.isMuted else s.trackEnabled }

/-- Formalisation of the stop/interrupt contract of claim C2, following the
spec: after stopPlayback no tracked handle remains, the cursor is zero, the
queue is empty, and the Residue Buffer is cleared. -/
def stopContractClaimC2 (s : SchedState) : Prop :=
  (stopPlayback s).1.activeSource = none ∧
  (stopPlayback s).1.nextStartTime = 0 ∧
  (stopPlayback s).1.audioQueue = [] ∧
  (stopPlayback s).1.residue = []

/-- Formalisation of claim C3, following the spec: whenever the
audio-processing callback of the current revision transmits a frame, the
socket is open, the track is enabled (not muted) and no greeting is in
progress. -/
def micGateClaimC3 : Prop :=
  ∀ (st : HookState) (input : List ℚ) (rate : ℚ),
    st.hasStream = true →
    (onAudioProcess st input rate).isSome = true →
    st.wsOpen = true ∧ st.trackEnabled = true ∧ st.greetingInProgress = false

/-- Formalisation of claim C6, following the spec: the resampler output has
length round(len * outputRate / inputRate) and each output sample is the
arithmetic mean of its (non-empty) contiguous span of input samples, the
spans being delimited by Math.round(k * inputRate/outputRate). -/
def meanResampleSpec (b : List ℚ) (inRate outRate : ℚ) : Prop :=
  (downsampleBuffer b inRate outRate).length =
    (jsRound ((b.length : ℚ) * outRate / inRate)).toNat ∧
  ∀ k < (downsampleBuffer b inRate outRate).length,
    spanIdxs b.length (jsRound ((k : ℚ) * (inRate / outRate)))
        (jsRound (((k : ℚ) + 1) * (inRate / outRate))) ≠ [] ∧
    (downsampleBuffer b inRate outRate).getD k 0 =
      ((spanIdxs b.length (jsRound ((k : ℚ) * (inRate / outRate)))
          (jsRound (((k : ℚ) + 1) * (inRate / outRate)))).map
        fun idx => b.getD idx 0).sum /
      (((spanIdxs b.length (jsRound ((k : ℚ) * (inRate / outRate)))
          (jsRound (((k : ℚ) + 1) * (inRate / outRate)))).length : ℚ))

/-- The observable Session Phase of the hook: call-active, greeting and
mute flags. -/
def phaseOf (s : HookState) : Bool × Bool × Bool :=
  (s.isCallActive, s.greetingInProgress, s.isMuted)

/-- Formalisation of claim C8, following the spec: when device acquisition
fails during a valid startCall, the error is reported exactly once and the
Session Phase is unchanged from before the call. -/
def deviceFailureClaimC8 : Prop :=
  ∀ (s : HookState) (sessionId : Option String),
    s.isCallActive = false → s.greetingInProgress = false → s.wsOpen = true →
    (startCall s sessionId false).2.count Ev.errorReported = 1 ∧
    phaseOf (startCall s sessionId false).1 = phaseOf s

theorem queueAudioChunk_spec (s : SchedState) (raw : List ℕ) (now : ℚ) :
    ((queueAudioChunk s raw now).2 = none ∧
      (queueAudioChunk s raw now).1.nextStartTime = s.nextStartTime) ∨
    (∃ samples, (queueAudioChunk s raw now).2 =
        some (samples, max (now + 1/50) s.nextStartTime) ∧
      (queueAudioChunk s raw now).1.nextStartTime =
        max (now + 1/50) s.nextStartTime + (samples.length : ℚ) / 16000) := by
  unfold queueAudioChunk
  dsimp only
  split <;> split <;>
    first
      | exact Or.inl ⟨rfl, rfl⟩
      | exact Or.inr ⟨_, rfl, rfl⟩

theorem queueAudioChunk_cursor_mono (s : SchedState) (raw : List ℕ) (now : ℚ) :
    s.nextStartTime ≤ (queueAudioChunk s raw now).1.nextStartTime := by
  rcases queueAudioChunk_spec s raw now with ⟨_, h⟩ | ⟨samples, _, h⟩
  · rw [h]
  · rw [h]
    refine (le_max_right _ _).trans (le_add_of_nonneg_right ?_)
    positivity

theorem processChunks_cursor_mono (chunks : List (List ℕ × ℚ)) : ∀ s : SchedState,
    s.nextStartTime ≤ (processChunks s chunks).1.nextStartTime := by
  induction chunks with
  | nil => intro s; exact le_refl _
  | cons c rest ih =>
    intro s
    obtain ⟨raw, now⟩ := c
    exact (queueAudioChunk_cursor_mono s raw now).trans (ih _)

/-- Claim C5 (confirmed): within one turn the Scheduled Playback Cursor
(nextStartTime) is monotonically non-decreasing, both per chunk and across
any sequence of chunks; whenever a chunk is scheduled its start time is
max(audioClockNow + 0.02, cursor) and the cursor advances to
startTime + sampleCount/16000; and each stop/interrupt (stopPlayback)
resets the cursor to 0. -/
theorem claim_C5_cursor (s : SchedState) (raw : List ℕ) (now : ℚ) :
    s.nextStartTime ≤ (queueAudioChunk s raw now).1.nextStartTime ∧
    (∀ chunks : List (List ℕ × ℚ),
      s.nextStartTime ≤ (processChunks s chunks).1.nextStartTime) ∧
    (∀ samples st, (queueAudioChunk s raw now).2 = some (samples, st) →
      st = max (now + 1/50) s.nextStartTime ∧
      (queueAudioChunk s raw now).1.nextStartTime =
        st + (samples.length : ℚ) / 16000) ∧
    (stopPlayback s).1.nextStartTime = 0 := by
  refine ⟨queueAudioChunk_cursor_mono s raw now,
    fun chunks => processChunks_cursor_mono chunks s, ?_, rfl⟩
  intro samples st h
  rcases queueAudioChunk_spec s raw now with ⟨h2, _⟩ | ⟨samples2, h2, h3⟩
  · rw [h2] at h; exact absurd h (by simp)
  · rw [h2] at h
    simp only [Option.some.injEq, Prod.mk.injEq] at h
    obtain ⟨rfl, rfl⟩ := h
    exact ⟨rfl, h3⟩

/-- Witness for claim C5: a concrete two-byte chunk queued from the initial
state is scheduled at max(0 + 0.02, 0) and advances the cursor by one
sample duration. -/
theorem claim_C5_cursor_witness :
    (queueAudioChunk initSched [1, 2] 0).2 = some ([513], max ((0:ℚ) + 1/50) 0) ∧
    max ((0:ℚ) + 1/50) 0 = max (0 + 1/50) initSched.nextStartTime ∧
    (queueAudioChunk initSched [1, 2] 0).1.nextStartTime =
      max ((0:ℚ) + 1/50) 0 + (([513] : List ℤ).length : ℚ) / 16000 := by
  have h := (claim_C5_cursor initSched [1, 2] 0).2.2.1 [513] (max ((0:ℚ) + 1/50) 0) rfl
  exact ⟨rfl, h.1, h.2⟩

/-- Claim C2 (corrected, amended): stopPlayback halts and disconnects the
active node (exactly when one exists), drops its handle, resets the cursor
to zero and clears the queue and playing flag, but it leaves the Residue
Buffer unchanged rather than clearing it. -/
theorem claim_C2_amended (s : SchedState) :
    (stopPlayback s).1.nextStartTime = 0 ∧
    (stopPlayback s).1.activeSource = none ∧
    (stopPlayback s).1.audioQueue = [] ∧
    (stopPlayback s).1.isPlaying = false ∧
    (stopPlayback s).1.residue = s.residue ∧
    (∀ id, s.activeSource = some id →
      (stopPlayback s).2 = [NodeAction.stop id, NodeAction.disconnect id]) ∧
    (s.activeSource = none → (stopPlayback s).2 = []) := by
  refine ⟨rfl, rfl, rfl, rfl, rfl, ?_, ?_⟩
  · intro id hid
    simp [stopPlayback, hid]
  · intro hid
    simp [stopPlayback, hid]

/-- Witness for the amended claim C2: stopping from a state with an active
node and a residue byte keeps the residue byte and stops and disconnects
the node. -/
theorem claim_C2_amended_witness :
    (stopPlayback { initSched with activeSource := some 5, residue := [9] }).1.residue = [9] ∧
    (stopPlayback { initSched with activeSource := some 5, residue := [9] }).2 =
      [NodeAction.stop 5, NodeAction.disconnect 5] := by
  exact ⟨(claim_C2_amended _).2.2.2.2.1, (claim_C2_amended _).2.2.2.2.2.1 5 rfl⟩

/-- Counterexample to claim C2 as stated: from a state whose Residue Buffer
holds the byte 7, stopPlayback does not leave an empty Residue Buffer, so
the stop contract's clear-the-residue clause fails. -/
theorem claim_C2_counterexample :
    ¬ stopContractClaimC2 { initSched with residue := [7], activeSource := some 0 } := by
  unfold stopContractClaimC2
  decide

/-- Claim C9 (confirmed): stopCall is valid from every state and idempotent
on the session state: it tears down the stream and processor, stops
playback, clears the call, greeting and mute flags, and applying it a
second time yields the identical state. -/
theorem claim_C9_stopCall_idempotent (s : HookState) :
    (stopCall (stopCall s).1).1 = (stopCall s).1 ∧
    (stopCall s).1.isCallActive = false ∧
    (stopCall s).1.greetingInProgress = false ∧
    (stopCall s).1.isMuted = false ∧
    (stopCall s).1.hasStream = false ∧
    (stopCall s).1.hasProcessor = false ∧
    (stopCall s).1.sched.nextStartTime = 0 ∧
    (stopCall s).1.sched.activeSource = none ∧
    (stopCall s).1.sched.isPlaying = false := by
  exact ⟨rfl, rfl, rfl, rfl, rfl, rfl, rfl, rfl, rfl⟩

/-- Claim C10 (confirmed): when the WebSocket is not open and the call is
otherwise valid (no call active, no greeting in progress), startCall is a
silent no-op: the state is unchanged and no event (in particular no error
callback and no send) is produced. -/
theorem claim_C10_startCall_noop (s : HookState) (sessionId : Option String) (micOk : Bool)
    (hws : s.wsOpen = false) (hact : s.isCallActive = false)
    (hgr : s.greetingInProgress = false) :
    startCall s sessionId micOk = (s, []) := by
  unfold startCall
  rw [hact, hgr, hws]
  simp

/-- Witness for claim C10: startCall on the freshly mounted state with a
closed socket returns the state unchanged with no events. -/
theorem claim_C10_witness :
    startCall { initHook with wsOpen := false } none true =
      ({ initHook with wsOpen := false }, []) :=
  claim_C10_startCall_noop _ _ _ rfl rfl rfl

/-- Claim C7 (confirmed): when the input rate equals the output rate the
resampler returns its input unchanged. -/
theorem claim_C7_identity (b : List ℚ) (rate : ℚ) :
    downsampleBuffer b rate rate = b := by
  unfold downsampleBuffer
  simp

/-- Counterexample to claim C3 as stated: in the current revision a state
with the socket open, the track enabled and the greeting in progress still
transmits the block, so the not-mid-greeting clause of the gate fails. -/
theorem claim_C3_counterexample : ¬ micGateClaimC3 := by
  intro h
  have h2 := h
    { initHook with hasStream := true, trackEnabled := true, greetingInProgress := true }
    [] 16000 rfl rfl
  exact absurd h2.2.2 (by decide)

/-- Claim C3 (corrected, amended): in src/lib/useWebSocketAudio.ts a block
is transmitted iff the socket is open and the capture track is enabled
(not muted); the greeting-phase gate exists only in the earlier revision
src/unnamed/part_002, whose block is transmitted iff the socket is open,
no greeting is in progress, and the track is enabled. -/
theorem claim_C3_amended (st : HookState) (input : List ℚ) (rate : ℚ) :
    (onAudioProcess st input rate).isSome =
      (st.wsOpen && (!st.hasStream || st.trackEnabled)) ∧
    (onAudioProcessPart002 st input).isSome =
      (st.wsOpen && !st.greetingInProgress && (!st.hasStream || st.trackEnabled)) := by
  obtain ⟨sched, ws, act, gr, th, sp, mu, hs, te, hp⟩ := st
  constructor <;>
    cases ws <;> cases gr <;> cases hs <;> cases te <;> rfl

/-- Counterexample to claim C8 as stated: a failing device acquisition
during a valid startCall from the initial state changes the observable
Session Phase (the greeting flag is left set), so the phase-unchanged
clause fails. -/
theorem claim_C8_counterexample : ¬ deviceFailureClaimC8 := by
  intro h
  have h2 := (h initHook none rfl rfl rfl).2
  have hne : phaseOf (startCall initHook none false).1 ≠ phaseOf initHook := by decide
  exact hne h2

/-- Claim C8 (corrected, amended): when device acquisition fails during a
valid startCall, the error is reported exactly once and isCallActive stays
false, but greetingInProgress - set before the acquisition - remains true,
so every further startCall is refused until stopCall clears the flag. -/
theorem claim_C8_amended (s : HookState) (sessionId : Option String)
    (hact : s.isCallActive = false) (hgr : s.greetingInProgress = false)
    (hws : s.wsOpen = true) :
    (startCall s sessionId false).2.count Ev.errorReported = 1 ∧
    (startCall s sessionId false).1.isCallActive = false ∧
    (startCall s sessionId false).1.greetingInProgress = true ∧
    (∀ sid2 ok2, startCall (startCall s sessionId false).1 sid2 ok2 =
      ((startCall s sessionId false).1, [])) := by
  unfold startCall startMicrophone
  rw [hact, hgr, hws]
  cases sessionId <;> simp [List.count_cons]

/-- Witness for the amended claim C8: the failure path from the initial
state reports one error and leaves the greeting flag set. -/
theorem claim_C8_amended_witness :
    (startCall initHook none false).2.count Ev.errorReported = 1 ∧
    (startCall initHook none false).1.greetingInProgress = true := by
  have h := claim_C8_amended initHook none rfl rfl rfl
  exact ⟨h.1, h.2.2.1⟩

theorem bytesToInt16_length : ∀ B : List ℕ, (bytesToInt16 B).length = B.length / 2
  | [] => rfl
  | [x] => by
    have h1 : bytesToInt16 [x] = [] := rfl
    rw [h1]
    simp only [List.length_nil, List.length_cons]
  | _ :: _ :: rest => by
    simp only [bytesToInt16, List.length_cons, bytesToInt16_length rest]
    omega

theorem bytesToInt16_append_even : ∀ a b : List ℕ, a.length % 2 = 0 →
    bytesToInt16 (a ++ b) = bytesToInt16 a ++ bytesToInt16 b
  | [], _, _ => rfl
  | [_], _, h => by simp at h
  | lo :: hi :: rest, b, h => by
    simp only [List.cons_append, bytesToInt16, List.cons.injEq, true_and]
    exact bytesToInt16_append_even rest b (by simp only [List.length_cons] at h; omega)

theorem bytesToInt16_take_even : ∀ B : List ℕ,
    bytesToInt16 (B.take (2 * (B.length / 2))) = bytesToInt16 B
  | [] => rfl
  | [x] => by
    have h1 : 2 * ([x].length / 2) = 0 := by
      simp only [List.length_cons, List.length_nil]
    rw [h1, List.take_zero]
    rfl
  | lo :: hi :: rest => by
    have h2 : 2 * ((lo :: hi :: rest).length / 2) = 2 * (rest.length / 2) + 1 + 1 := by
      simp only [List.length_cons]; omega
    rw [h2, List.take_succ_cons, List.take_succ_cons]
    simp only [bytesToInt16, List.cons.injEq, true_and]
    exact bytesToInt16_take_even rest

theorem queueAudioChunk_residue_emit (s : SchedState) (raw : List ℕ) (now : ℚ) :
    (queueAudioChunk s raw now).1.residue =
      (s.residue ++ raw).drop (2 * ((s.residue ++ raw).length / 2)) ∧
    emitted (queueAudioChunk s raw now).2 = bytesToInt16 (s.residue ++ raw) := by
  unfold queueAudioChunk
  dsimp only
  by_cases hodd : (s.residue ++ raw).length % 2 ≠ 0
  · simp only [if_pos hodd]
    by_cases h0 : (s.residue ++ raw).dropLast.length = 0
    · simp only [if_pos h0]
      constructor
      · show (s.residue ++ raw).drop ((s.residue ++ raw).length - 1) = _
        congr 1
        omega
      · show emitted none = _
        have hb : 2 * ((s.residue ++ raw).length / 2) = 0 := by
          rw [List.dropLast_eq_take, List.length_take] at h0
          omega
        rw [← bytesToInt16_take_even (s.residue ++ raw), hb, List.take_zero]
        rfl
    · simp only [if_neg h0]
      constructor
      · show (s.residue ++ raw).drop ((s.residue ++ raw).length - 1) = _
        congr 1
        omega
      · show bytesToInt16 (s.residue ++ raw).dropLast = _
        rw [List.dropLast_eq_take,
          show (s.residue ++ raw).length - 1 = 2 * ((s.residue ++ raw).length / 2) from by omega,
          bytesToInt16_take_even]
  · simp only [if_neg hodd]
    by_cases h0 : (s.residue ++ raw).length = 0
    · simp only [if_pos h0]
      rw [List.length_eq_zero] at h0
      rw [h0]
      exact ⟨rfl, rfl⟩
    · simp only [if_neg h0]
      constructor
      · show ([] : List ℕ) = _
        rw [show 2 * ((s.residue ++ raw).length / 2) = (s.residue ++ raw).length from by omega,
          List.drop_length]
      · rfl

theorem processChunks_join_cons (s : SchedState) (raw : List ℕ) (now : ℚ)
    (rest : List (List ℕ × ℚ)) :
    (processChunks s ((raw, now) :: rest)).2.flatten =
      emitted (queueAudioChunk s raw now).2 ++
        (processChunks (queueAudioChunk s raw now).1 rest).2.flatten ∧
    (processChunks s ((raw, now) :: rest)).1 =
      (processChunks (queueAudioChunk s raw now).1 rest).1 := by
  cases h : (queueAudioChunk s raw now).2 <;>
    simp [processChunks, emitted, h]

theorem dropEven_append (A C : List ℕ) :
    (A.drop (2 * (A.length / 2)) ++ C).drop
      (2 * ((A.drop (2 * (A.length / 2)) ++ C).length / 2)) =
    (A ++ C).drop (2 * ((A ++ C).length / 2)) := by
  have hkA : 2 * (A.length / 2) ≤ A.length := by omega
  have htake : (A.take (2 * (A.length / 2))).length = 2 * (A.length / 2) := by
    rw [List.length_take]
    omega
  have hsplit : 2 * ((A ++ C).length / 2) =
      2 * (A.length / 2) + 2 * ((A.drop (2 * (A.length / 2)) ++ C).length / 2) := by
    rw [List.length_append, List.length_append, List.length_drop]
    omega
  have hd := @List.drop_append _ (A.take (2 * (A.length / 2)))
      (A.drop (2 * (A.length / 2)) ++ C)
      (2 * ((A.drop (2 * (A.length / 2)) ++ C).length / 2))
  rw [← hd, ← List.append_assoc, List.take_append_drop, htake, ← hsplit]

theorem bytesToInt16_split (A C : List ℕ) :
    bytesToInt16 A ++ bytesToInt16 (A.drop (2 * (A.length / 2)) ++ C) =
      bytesToInt16 (A ++ C) := by
  have heven : (A.take (2 * (A.length / 2))).length % 2 = 0 := by
    rw [List.length_take]
    omega
  have hA : A ++ C = A.take (2 * (A.length / 2)) ++ (A.drop (2 * (A.length / 2)) ++ C) := by
    rw [← List.append_assoc, List.take_append_drop]
  rw [hA, bytesToInt16_append_even _ _ heven, bytesToInt16_take_even]

theorem processChunks_spec : ∀ (chunks : List (List ℕ × ℚ)) (s : SchedState),
    s.residue.length ≤ 1 →
    (processChunks s chunks).2.flatten =
      bytesToInt16 (s.residue ++ (chunks.map Prod.fst).flatten) ∧
    (processChunks s chunks).1.residue =
      (s.residue ++ (chunks.map Prod.fst).flatten).drop
        (2 * ((s.residue ++ (chunks.map Prod.fst).flatten).length / 2))
  | [], s, hs => by
    constructor
    · simp only [processChunks, List.flatten_nil, List.map_nil, List.append_nil]
      rcases hres : s.residue with _ | ⟨a, l⟩
      · rfl
      · rcases l with _ | ⟨b, l2⟩
        · rfl
        · rw [hres] at hs
          simp at hs
    · simp only [processChunks, List.map_nil, List.flatten_nil, List.append_nil]
      have h2 : 2 * (s.residue.length / 2) = 0 := by omega
      rw [h2, List.drop_zero]
  | (raw, now) :: rest, s, hs => by
    have step := queueAudioChunk_residue_emit s raw now
    have hres1 : (queueAudioChunk s raw now).1.residue.length ≤ 1 := by
      rw [step.1, List.length_drop]
      omega
    have ih := processChunks_spec rest (queueAudioChunk s raw now).1 hres1
    have hcons := processChunks_join_cons s raw now rest
    constructor
    · rw [hcons.1, ih.1, step.1, step.2, List.map_cons, List.flatten_cons,
        ← List.append_assoc]
      exact bytesToInt16_split (s.residue ++ raw) ((rest.map Prod.fst).flatten)
    · rw [hcons.2, ih.2, step.1, List.map_cons, List.flatten_cons, ← List.append_assoc]
      exact dropEven_append (s.residue ++ raw) ((rest.map Prod.fst).flatten)

theorem stateAfter_succ : ∀ (trace : List (Msg × ℚ)) (s0 : HookState) (n : ℕ),
    n < trace.length →
    stateAfter s0 trace (n + 1) =
      (onMessage (stateAfter s0 trace n) (trace.getD n (Msg.audioEnd, 0)).1
        (trace.getD n (Msg.audioEnd, 0)).2).1
  | [], _, _, h => absurd h (by simp)
  | (_, _) :: _, _, 0, _ => rfl
  | (m, now) :: rest, s0, n + 1, h =>
    stateAfter_succ rest (onMessage s0 m now).1 n (by simpa using h)

theorem runTrace_events_getD : ∀ (trace : List (Msg × ℚ)) (s0 : HookState) (j : ℕ),
    j < trace.length →
    (runTrace s0 trace).2.getD j [] =
      (onMessage (stateAfter s0 trace j) (trace.getD j (Msg.audioEnd, 0)).1
        (trace.getD j (Msg.audioEnd, 0)).2).2
  | [], _, _, h => absurd h (by simp)
  | (_, _) :: _, _, 0, _ => rfl
  | (m, now) :: rest, s0, j + 1, h =>
    runTrace_events_getD rest (onMessage s0 m now).1 j (by simpa using h)

theorem onMessage_interrupt_stops (st : HookState) (m : Msg) (now : ℚ)
    (hm : isInterrupt m = true) :
    (onMessage st m now).1.sched.nextStartTime = 0 ∧
    (onMessage st m now).1.sched.activeSource = none := by
  cases m <;>
    first
      | exact ⟨rfl, rfl⟩
      | exact Bool.noConfusion hm

theorem queueAudioChunk_schedules (s : SchedState) (raw : List ℕ) (now : ℚ)
    (hb : 2 ≤ (s.residue ++ raw).length) :
    (queueAudioChunk s raw now).2 =
      some (bytesToInt16 (s.residue ++ raw), max (now + 1/50) s.nextStartTime) ∧
    bytesToInt16 (s.residue ++ raw) ≠ [] := by
  have hemit := (queueAudioChunk_residue_emit s raw now).2
  have hlen : (bytesToInt16 (s.residue ++ raw)).length = (s.residue ++ raw).length / 2 :=
    bytesToInt16_length _
  have hne : bytesToInt16 (s.residue ++ raw) ≠ [] := by
    intro h0
    rw [h0] at hlen
    simp only [List.length_nil] at hlen
    omega
  refine ⟨?_, hne⟩
  rcases queueAudioChunk_spec s raw now with ⟨h1, _⟩ | ⟨samples, h1, _⟩
  · rw [h1] at hemit
    exact absurd hemit.symm hne
  · rw [h1] at hemit ⊢
    rw [show emitted (some (samples, max (now + 1/50) s.nextStartTime)) = samples from rfl]
      at hemit
    rw [hemit]

theorem onMessage_audio_schedules (st : HookState) (bytes : List ℕ) (now : ℚ)
    (hb : 2 ≤ bytes.length) :
    (onMessage st (Msg.audio bytes) now).2 =
      [Ev.scheduled (bytesToInt16 (st.sched.residue ++ bytes))
        (max (now + 1/50) st.sched.nextStartTime)] ∧
    bytesToInt16 (st.sched.residue ++ bytes) ≠ [] := by
  have hb2 : 2 ≤ (st.sched.residue ++ bytes).length := by
    rw [List.length_append]
    omega
  have hq := queueAudioChunk_schedules st.sched bytes now hb2
  have hie : bytes.isEmpty = false := by
    cases bytes with
    | nil => simp at hb
    | cons a l => rfl
  refine ⟨?_, hq.2⟩
  simp only [onMessage, hie, Bool.false_eq_true, if_false]
  rw [hq.1]

/-- Claim C1 (corrected, amended): whenever message i of a trace is
tts_interrupted or user_activity, processing it stops playback (cursor 0,
no tracked handle); but there is no Ignore-Audio flag, so any audio
message j arriving later - with no tts_start/intro_start in between, hence
still belonging to the superseded turn - is decoded and scheduled
normally (one scheduled event with the non-empty decoded samples at
max(now + 0.02, cursor)). -/
theorem claim_C1_amended (s0 : HookState) (trace : List (Msg × ℚ)) (i j : ℕ)
    (bytes : List ℕ)
    (hi : i < trace.length) (hj : j < trace.length) (hij : i < j)
    (hint : isInterrupt (trace.getD i (Msg.audioEnd, 0)).1 = true)
    (hno : ∀ k, i < k → k < j → isTurnStart (trace.getD k (Msg.audioEnd, 0)).1 = false)
    (hb : 2 ≤ bytes.length)
    (haud : (trace.getD j (Msg.audioEnd, 0)).1 = Msg.audio bytes) :
    (stateAfter s0 trace (i + 1)).sched.nextStartTime = 0 ∧
    (stateAfter s0 trace (i + 1)).sched.activeSource = none ∧
    schedEvs ((runTrace s0 trace).2.getD j []) =
      [Ev.scheduled (bytesToInt16 ((stateAfter s0 trace j).sched.residue ++ bytes))
        (max ((trace.getD j (Msg.audioEnd, 0)).2 + 1/50)
          (stateAfter s0 trace j).sched.nextStartTime)] ∧
    bytesToInt16 ((stateAfter s0 trace j).sched.residue ++ bytes) ≠ [] := by
  have hstop := onMessage_interrupt_stops (stateAfter s0 trace i)
    (trace.getD i (Msg.audioEnd, 0)).1 (trace.getD i (Msg.audioEnd, 0)).2 hint
  have hsucc := stateAfter_succ trace s0 i hi
  have hsch := onMessage_audio_schedules (stateAfter s0 trace j) bytes
    (trace.getD j (Msg.audioEnd, 0)).2 hb
  refine ⟨by rw [hsucc]; exact hstop.1, by rw [hsucc]; exact hstop.2, ?_, hsch.2⟩
  rw [runTrace_events_getD trace s0 j hj, haud, hsch.1]
  simp [schedEvs]

/-- Witness for the amended claim C1: in the concrete trace tts_start,
audio, tts_interrupted, audio, the interrupt at position 2 stops playback,
and the two-byte audio message at position 3 - with no turn start in
between - is still decoded and scheduled. -/
theorem claim_C1_amended_witness :
    (stateAfter initHook
      [(Msg.ttsStart "hello", 0), (Msg.audio [16, 39], 0),
       (Msg.ttsInterrupted, 0), (Msg.audio [1, 2], 0)] 3).sched.nextStartTime = 0 ∧
    (stateAfter initHook
      [(Msg.ttsStart "hello", 0), (Msg.audio [16, 39], 0),
       (Msg.ttsInterrupted, 0), (Msg.audio [1, 2], 0)] 3).sched.activeSource = none ∧
    schedEvs ((runTrace initHook
      [(Msg.ttsStart "hello", 0), (Msg.audio [16, 39], 0),
       (Msg.ttsInterrupted, 0), (Msg.audio [1, 2], 0)]).2.getD 3 []) =
      [Ev.scheduled
        (bytesToInt16 ((stateAfter initHook
          [(Msg.ttsStart "hello", 0), (Msg.audio [16, 39], 0),
           (Msg.ttsInterrupted, 0), (Msg.audio [1, 2], 0)] 3).sched.residue ++ [1, 2]))
        (max (((0 : ℚ)) + 1/50)
          (stateAfter initHook
            [(Msg.ttsStart "hello", 0), (Msg.audio [16, 39], 0),
             (Msg.ttsInterrupted, 0), (Msg.audio [1, 2], 0)] 3).sched.nextStartTime)] ∧
    bytesToInt16 ((stateAfter initHook
      [(Msg.ttsStart "hello", 0), (Msg.audio [16, 39], 0),
       (Msg.ttsInterrupted, 0), (Msg.audio [1, 2], 0)] 3).sched.residue ++ [1, 2]) ≠ [] :=
  claim_C1_amended initHook
    [(Msg.ttsStart "hello", 0), (Msg.audio [16, 39], 0),
     (Msg.ttsInterrupted, 0), (Msg.audio [1, 2], 0)] 2 3 [1, 2]
    (by decide) (by decide) (by decide) (by decide)
    (fun k hk1 hk2 => by omega) (by decide) rfl

/-- Claim C4 (confirmed): over any chunk sequence the scheduled samples
are exactly the 16-bit decode, in order, of the concatenated bytes -
floor(totalBytes/2) samples - the final residue holds totalBytes mod 2
bytes (one byte exactly when the total is odd), and after every chunk the
Residue Buffer holds at most one byte. -/
theorem claim_C4_residue (chunks : List (List ℕ × ℚ)) :
    ((processChunks initSched chunks).2.flatten).length =
      ((chunks.map Prod.fst).flatten).length / 2 ∧
    (processChunks initSched chunks).2.flatten =
      bytesToInt16 ((chunks.map Prod.fst).flatten) ∧
    (processChunks initSched chunks).1.residue.length =
      ((chunks.map Prod.fst).flatten).length % 2 ∧
    ∀ n, (processChunks initSched (chunks.take n)).1.residue.length ≤ 1 := by
  have h := processChunks_spec chunks initSched (by simp [initSched])
  have hinit : initSched.residue = [] := rfl
  rw [hinit, List.nil_append] at h
  refine ⟨?_, h.1, ?_, ?_⟩
  · rw [h.1, bytesToInt16_length]
  · rw [h.2, List.length_drop]
    omega
  · intro n
    have h2 := processChunks_spec (chunks.take n) initSched (by simp [initSched])
    rw [h2.2, List.length_drop]
    omega

theorem dsLoop_len (b : List ℚ) (ratio : ℚ) : ∀ (rem k : ℕ) (off : ℤ),
    (dsLoop b ratio k off rem).length = rem
  | 0, _, _ => rfl
  | rem + 1, k, off => by simp [dsLoop, dsLoop_len b ratio rem]

theorem downsampleBuffer_ne (b : List ℚ) (i o : ℚ) (h : o ≠ i) :
    downsampleBuffer b i o =
      dsLoop b (i / o) 0 0 (jsRound ((b.length : ℚ) / (i / o))).toNat := by
  unfold downsampleBuffer
  rw [if_neg h]

theorem dsLoop_getD (b : List ℚ) (ratio : ℚ) : ∀ (rem k j : ℕ), j < rem →
    (dsLoop b ratio k (jsRound ((k : ℚ) * ratio)) rem).getD j 0 =
      loopAvg b (jsRound (((k + j : ℕ) : ℚ) * ratio))
        (jsRound ((((k + j : ℕ) : ℚ) + 1) * ratio))
  | 0, _, _, h => absurd h (Nat.not_lt_zero _)
  | rem + 1, k, 0, _ => by
    simp only [dsLoop, List.getD_cons_zero, Nat.add_zero]
  | rem + 1, k, j + 1, h => by
    simp only [dsLoop, List.getD_cons_succ]
    have hcast : ((k : ℚ) + 1) * ratio = (((k + 1 : ℕ) : ℚ)) * ratio := by
      push_cast
      ring
    rw [hcast, dsLoop_getD b ratio rem (k + 1) j (by omega),
      show k + 1 + j = k + (j + 1) from by omega]

theorem span_nonempty (b : List ℚ) (ratio : ℚ) (hr : 1 < ratio) (k : ℕ)
    (hk : (k : ℤ) < jsRound ((b.length : ℚ) / ratio)) :
    (jsRound ((k : ℚ) * ratio)).toNat ∈
      spanIdxs b.length (jsRound ((k : ℚ) * ratio)) (jsRound (((k : ℚ) + 1) * ratio)) := by
  have hr0 : (0 : ℚ) < ratio := lt_trans one_pos hr
  have h0 : (0 : ℤ) ≤ jsRound ((k : ℚ) * ratio) := by
    unfold jsRound
    apply Int.floor_nonneg.mpr
    positivity
  have hk2 : ((k : ℚ) + 1) ≤ (b.length : ℚ) / ratio + 1/2 := by
    unfold jsRound at hk
    have h1 := Int.add_one_le_iff.mpr hk
    have h2 := Int.le_floor.mp h1
    exact_mod_cast h2
  have hlt : (k : ℚ) * ratio + 1/2 < (b.length : ℚ) := by
    have h1 : (k : ℚ) ≤ (b.length : ℚ) / ratio - 1/2 := by linarith
    have h2 : (k : ℚ) * ratio ≤ ((b.length : ℚ) / ratio - 1/2) * ratio :=
      mul_le_mul_of_nonneg_right h1 (le_of_lt hr0)
    have h3 : ((b.length : ℚ) / ratio) * ratio = (b.length : ℚ) :=
      div_mul_cancel₀ _ (ne_of_gt hr0)
    nlinarith
  have hfl : jsRound ((k : ℚ) * ratio) < (b.length : ℤ) := by
    unfold jsRound
    apply Int.floor_lt.mpr
    push_cast
    linarith
  have hstep : jsRound ((k : ℚ) * ratio) + 1 ≤ jsRound (((k : ℚ) + 1) * ratio) := by
    unfold jsRound
    have hmono : (k : ℚ) * ratio + 1/2 + 1 ≤ ((k : ℚ) + 1) * ratio + 1/2 := by nlinarith
    calc ⌊(k : ℚ) * ratio + 1/2⌋ + 1 = ⌊(k : ℚ) * ratio + 1/2 + 1⌋ :=
          (Int.floor_add_one _).symm
      _ ≤ ⌊((k : ℚ) + 1) * ratio + 1/2⌋ := Int.floor_le_floor hmono
  unfold spanIdxs
  rw [List.mem_filter]
  refine ⟨List.mem_range.mpr (by omega), ?_⟩
  rw [decide_eq_true_eq]
  omega

/-- Claim C6 (corrected, amended): for genuine downsampling
(0 < outputRate < inputRate) the output length is
round(len * outputRate / inputRate) and every output sample is the
arithmetic mean of its non-empty contiguous span of input samples. -/
theorem claim_C6_amended (b : List ℚ) (inRate outRate : ℚ)
    (ho : 0 < outRate) (hio : outRate < inRate) :
    meanResampleSpec b inRate outRate := by
  have hne : outRate ≠ inRate := ne_of_lt hio
  have hr : 1 < inRate / outRate := (one_lt_div ho).mpr hio
  have hds := downsampleBuffer_ne b inRate outRate hne
  have hlen : (downsampleBuffer b inRate outRate).length =
      (jsRound ((b.length : ℚ) / (inRate / outRate))).toNat := by
    rw [hds, dsLoop_len]
  constructor
  · rw [hlen, div_div_eq_mul_div]
  · intro p hp
    rw [hlen] at hp
    have hkz : (p : ℤ) < jsRound ((b.length : ℚ) / (inRate / outRate)) := by omega
    have hmem := span_nonempty b (inRate / outRate) hr p hkz
    refine ⟨List.ne_nil_of_mem hmem, ?_⟩
    have hoff : (0 : ℤ) = jsRound (((0 : ℕ) : ℚ) * (inRate / outRate)) := by
      unfold jsRound
      norm_num
    have hget : (downsampleBuffer b inRate outRate).getD p 0 =
        loopAvg b (jsRound ((p : ℚ) * (inRate / outRate)))
          (jsRound (((p : ℚ) + 1) * (inRate / outRate))) := by
      rw [hds, hoff]
      have h2 := dsLoop_getD b (inRate / outRate)
        ((jsRound ((b.length : ℚ) / (inRate / outRate))).toNat) 0 p (by omega)
      simpa using h2
    rw [hget]
    unfold loopAvg
    rw [if_neg]
    intro hzero
    exact (List.ne_nil_of_mem hmem) (List.length_eq_zero.mp hzero)

/-- Witness for the amended claim C6: resampling [1, 2, 3] from 48 kHz to
16 kHz yields [2], the mean of the single span. -/
theorem claim_C6_amended_witness :
    (0 : ℚ) < 16000 ∧ (16000 : ℚ) < 48000 ∧
    meanResampleSpec [1, 2, 3] 48000 16000 ∧
    downsampleBuffer [1, 2, 3] 48000 16000 = [2] := by
  refine ⟨by norm_num, by norm_num,
    claim_C6_amended [1, 2, 3] 48000 16000 (by norm_num) (by norm_num), ?_⟩
  rw [downsampleBuffer_ne _ _ _ (by norm_num)]
  have hN : (jsRound ((([1, 2, 3] : List ℚ).length : ℚ) / (48000 / 16000))).toNat = 1 := by
    unfold jsRound
    norm_num
  rw [hN]
  have h3 : jsRound ((((0 : ℕ) : ℚ) + 1) * (48000 / 16000)) = 3 := by
    unfold jsRound
    norm_num
  simp only [dsLoop, h3]
  unfold loopAvg
  rw [show spanIdxs ([1, 2, 3] : List ℚ).length 0 3 = [0, 1, 2] from by decide]
  norm_num [List.getD]

/-- Counterexample to claim C1 as stated: in the concrete trace tts_start,
audio, tts_interrupted, audio the second audio message - arriving after
the interrupt with no intervening turn start - is scheduled, so the
suppression property fails. -/
theorem claim_C1_counterexample : ¬ ghostFree initHook
    [(Msg.ttsStart "hello", 0), (Msg.audio [16, 39], 0),
     (Msg.ttsInterrupted, 0), (Msg.audio [1, 2], 0)] := by
  intro h
  have h2 := h 2 (by decide) 3 (by decide) (by decide) (by decide)
    (fun k hk hik => by omega)
  simp [runTrace, onMessage, queueAudioChunk, stopPlayback, initSched, initHook,
    schedEvs, bytesToInt16, toInt16] at h2

/-- Counterexample to claim C6 as stated: upsampling one sample from
8 kHz to 16 kHz produces a second output slot whose input span is empty
(the code emits 0 for it), so the every-sample-is-a-mean property fails
when inputRate < outputRate. -/
theorem claim_C6_counterexample : ¬ meanResampleSpec [1] 8000 16000 := by
  intro h
  have hlen : (downsampleBuffer [1] 8000 16000).length = 2 := by
    rw [downsampleBuffer_ne _ _ _ (by norm_num), dsLoop_len]
    unfold jsRound
    norm_num
    rfl
  have h1 := (h.2 1 (by rw [hlen]; norm_num)).1
  apply h1
  have e1 : jsRound (((1:ℕ) : ℚ) * (8000 / 16000)) = 1 := by
    unfold jsRound
    norm_num
  have e2 : jsRound ((((1:ℕ) : ℚ) + 1) * (8000 / 16000)) = 1 := by
    unfold jsRound
    norm_num
  rw [e1, e2]
  decide

end WsAudio
